import Mathlib

/-!
Verification of the StaticLang runtime built-in functions
(src/staticlang/runtime/builtin.c).

The C code is shallowly embedded: a pointer is a natural number (0 is
NULL), the heap is a finite association list from block addresses to the
block's byte contents, and the host allocator is a bump allocator with an
out-of-memory flag (`oom`) that makes every allocation fail, modelling
`malloc`/`calloc` returning NULL.  Bytes are natural numbers; a C string
is the sequence of bytes stored at its address up to the first zero byte
(the sentinel terminator).  `size_t` arithmetic in the debug ledger is
modelled as natural-number arithmetic modulo 2^64.
-/

namespace StaticLang

/-- A pointer value; 0 plays the role of NULL. -/
abbrev Ptr := Nat

/-- `SIZE_MAX`, the largest value of the C type `size_t` on the target. -/
def SIZE_MAX : Nat := 2 ^ 64 - 1

/-- Modulus of `size_t` arithmetic. -/
def WORD : Nat := 2 ^ 64

/-- The heap: a bump allocator.  `next` is the next fresh address (fresh
addresses are never 0, so a successful allocation is never NULL); `mem`
associates each live block address with the block's bytes; `oom` models the
host allocator refusing all further requests (malloc returning NULL). -/
structure Heap where
  oom : Bool
  next : Nat
  mem : List (Nat × List Nat)
deriving DecidableEq, Repr

/-- Look a block up in an association list of blocks. -/
def lookupBlocks : List (Nat × List Nat) → Nat → Option (List Nat)
  | [], _ => none
  | b :: bs, p => if b.1 = p then some b.2 else lookupBlocks bs p

/-- Contents of the block at address `p`, if `p` is a live block. -/
def Heap.lookup (h : Heap) (p : Nat) : Option (List Nat) :=
  lookupBlocks h.mem p

/-- Heap well-formedness: fresh addresses are nonzero and every live block
has an address below the bump pointer. -/
def Heap.wf (h : Heap) : Prop :=
  1 ≤ h.next ∧ ∀ b ∈ h.mem, b.1 < h.next

instance (h : Heap) : Decidable h.wf := by
  unfold Heap.wf; infer_instance

/-- `malloc(size)`: on success returns a fresh nonzero address holding
`size` bytes (their initial values are irrelevant: every theorem below
only relies on bytes the code subsequently writes); on failure (`oom`)
returns NULL and leaves the heap unchanged. -/
def malloc (h : Heap) (size : Nat) : Heap × Ptr :=
  if h.oom then (h, 0)
  else (⟨h.oom, h.next + 1, (h.next, List.replicate size 0) :: h.mem⟩, h.next)

/-- `calloc(count, size)`: NULL when `count * size` overflows `size_t`
(the zero-initializing allocator detects the overflow) or on allocation
failure; otherwise a fresh block of `count * size` zero bytes. -/
def calloc (h : Heap) (num size : Nat) : Heap × Ptr :=
  if SIZE_MAX < num * size then (h, 0)
  else if h.oom then (h, 0)
  else (⟨h.oom, h.next + 1, (h.next, List.replicate (num * size) 0) :: h.mem⟩, h.next)

/-- `free(ptr)`: remove the block at `ptr` from the heap. -/
def hostFree (h : Heap) (ptr : Ptr) : Heap :=
  ⟨h.oom, h.next, h.mem.filter (fun b => b.1 ≠ ptr)⟩

/-- Overwrite the first `data.length` bytes of the block at `p`. -/
def writeBytes (h : Heap) (p : Ptr) (data : List Nat) : Heap :=
  ⟨h.oom, h.next,
    h.mem.map (fun b => if b.1 = p then (b.1, data ++ b.2.drop data.length) else b)⟩

/-- The bytes of a C string: everything before the first zero byte.
`none` if no terminator is present (the read would run off the block). -/
def takeUntilZero : List Nat → Option (List Nat)
  | [] => none
  | b :: bs => if b = 0 then some [] else (takeUntilZero bs).map (fun t => b :: t)

/-- Read the C string stored at address `p` (used by `strlen`, `strcpy`,
`strcat` and `strcmp` on their pointer arguments). -/
def readStr (h : Heap) (p : Ptr) : Option (List Nat) :=
  (h.lookup p).bind takeUntilZero

/-- `strcpy(dest, src)` where `src` holds the string `s`: writes the bytes
of `s` followed by the terminator at the start of `dest`'s block. -/
def strcpy (h : Heap) (dest : Ptr) (s : List Nat) : Heap :=
  writeBytes h dest (s ++ [0])

/-- `strcat(dest, src)` where `src` holds the string `s`: appends the
bytes of `s` and a terminator after the string already in `dest`. -/
def strcat (h : Heap) (dest : Ptr) (s : List Nat) : Heap :=
  match readStr h dest with
  | none => h
  | some d => writeBytes h dest (d ++ s ++ [0])

/-- `strcmp` on the byte contents of two C strings (contents exclude the
terminator and contain no zero byte, so the usual list-lexicographic
comparison coincides with C's comparison through the terminator).  The
sign convention (-1/1) stands in for C's implementation-defined
negative/positive magnitudes. -/
def strcmp : List Nat → List Nat → Int
  | [], [] => 0
  | [], _ :: _ => -1
  | _ :: _, [] => 1
  | a :: as, b :: bs => if a < b then -1 else if b < a then 1 else strcmp as bs

/-- void* sl_malloc(size_t size) { return malloc(size); } -/
def sl_malloc (h : Heap) (size : Nat) : Heap × Ptr :=
  malloc h size

/-- void sl_free(void* ptr) { if (ptr != NULL) { free(ptr); } } -/
def sl_free (h : Heap) (ptr : Ptr) : Heap :=
  if ptr ≠ 0 then hostFree h ptr else h

/-- char* sl_alloc_string(const char* str): NULL in, NULL out; otherwise
malloc(strlen(str) + 1) and, if that succeeded, strcpy the source into it.
`none` models undefined behaviour (a non-NULL `str` that is not a valid
C string). -/
def sl_alloc_string (h : Heap) (str : Ptr) : Option (Heap × Ptr) :=
  if str = 0 then some (h, 0)
  else
    match readStr h str with
    | none => none
    | some s =>
      let hr := malloc h (s.length + 1)
      if hr.2 ≠ 0 then some (strcpy hr.1 hr.2 s, hr.2)
      else some (hr.1, hr.2)

/-- char* sl_concat_string(const char* str1, const char* str2): the
three-way NULL branching, then malloc(len1 + len2 + 1), strcpy of the
first string and strcat of the second on success. -/
def sl_concat_string (h : Heap) (str1 str2 : Ptr) : Option (Heap × Ptr) :=
  if str1 = 0 ∧ str2 = 0 then some (h, 0)
  else if str1 = 0 then sl_alloc_string h str2
  else if str2 = 0 then sl_alloc_string h str1
  else
    match readStr h str1, readStr h str2 with
    | some s1, some s2 =>
      let hr := malloc h (s1.length + s2.length + 1)
      if hr.2 ≠ 0 then some (strcat (strcpy hr.1 hr.2 s1) hr.2 s2, hr.2)
      else some (hr.1, hr.2)
    | _, _ => none

/-- int sl_compare_string(const char* str1, const char* str2): 0 when both
NULL, 1 when exactly one is NULL, strcmp otherwise. -/
def sl_compare_string (h : Heap) (str1 str2 : Ptr) : Option Int :=
  if str1 = 0 ∧ str2 = 0 then some 0
  else if str1 = 0 ∨ str2 = 0 then some 1
  else
    match readStr h str1, readStr h str2 with
    | some s1, some s2 => some (strcmp s1 s2)
    | _, _ => none

/-- void* sl_alloc_array(size_t element_size, size_t count)
{ return calloc(count, element_size); } -/
def sl_alloc_array (h : Heap) (element_size count : Nat) : Heap × Ptr :=
  calloc h count element_size

/-! Debug-mode memory tracking (the `DEBUG_MEMORY` build).  The two
`static size_t` counters `allocated_bytes` and `allocation_count` form the
Allocation Ledger; `size_t` increments and decrements wrap modulo 2^64.
The `fprintf` diagnostics have no effect on the ledger or the heap and are
not modelled. -/

/-- The process-wide debug state: the heap plus the Allocation Ledger. -/
structure DebugState where
  heap : Heap
  allocated_bytes : Nat
  allocation_count : Nat
deriving DecidableEq, Repr

/-- Process start: empty heap, ledger implicitly zero (C statics). -/
def startDebugState : DebugState :=
  ⟨⟨false, 1, []⟩, 0, 0⟩

/-- void* sl_debug_malloc(size_t size, ...): malloc, and on success add
`size` to `allocated_bytes` and increment `allocation_count`. -/
def sl_debug_malloc (s : DebugState) (size : Nat) : DebugState × Ptr :=
  let hr := malloc s.heap size
  if hr.2 ≠ 0 then
    (⟨hr.1, (s.allocated_bytes + size) % WORD, (s.allocation_count + 1) % WORD⟩, hr.2)
  else
    (⟨hr.1, s.allocated_bytes, s.allocation_count⟩, hr.2)

/-- void sl_debug_free(void* ptr, ...): if `ptr` is non-NULL, decrement
`allocation_count` (a `size_t` decrement, wrapping modulo 2^64) and free
the block; `allocated_bytes` is not touched. -/
def sl_debug_free (s : DebugState) (ptr : Ptr) : DebugState :=
  if ptr ≠ 0 then
    ⟨hostFree s.heap ptr, s.allocated_bytes, (s.allocation_count + (WORD - 1)) % WORD⟩
  else s

/-- void sl_print_memory_stats(): reports the two ledger counters to
stderr; it reads the ledger and mutates nothing, so it is modelled as the
pure pair of values it prints. -/
def sl_print_memory_stats (s : DebugState) : Nat × Nat :=
  (s.allocated_bytes, s.allocation_count)

/-- A tracked operation against the debug allocator. -/
inductive DbgOp where
  | alloc (size : Nat)
  | free (ptr : Ptr)
deriving DecidableEq, Repr

/-- Run a sequence of tracked operations. -/
def runOps (s : DebugState) : List DbgOp → DebugState
  | [] => s
  | DbgOp.alloc size :: rest => runOps (sl_debug_malloc s size).1 rest
  | DbgOp.free p :: rest => runOps (sl_debug_free s p) rest

/-- Number of tracked allocations in a sequence. -/
def countAllocs : List DbgOp → Nat
  | [] => 0
  | DbgOp.alloc _ :: rest => countAllocs rest + 1
  | DbgOp.free _ :: rest => countAllocs rest

/-- Number of tracked releases in a sequence. -/
def countFrees : List DbgOp → Nat
  | [] => 0
  | DbgOp.alloc _ :: rest => countFrees rest
  | DbgOp.free _ :: rest => countFrees rest + 1

/-- Sum of the requested sizes of the tracked allocations in a sequence. -/
def sumAllocSizes : List DbgOp → Nat
  | [] => 0
  | DbgOp.alloc size :: rest => size + sumAllocSizes rest
  | DbgOp.free _ :: rest => sumAllocSizes rest

/-- A concrete well-formed heap used to instantiate the theorems: the
string "hi" lives at address 1 and "yo" at address 2. -/
def demoHeap : Heap :=
  ⟨false, 3, [(1, [104, 105, 0]), (2, [121, 111, 0])]⟩

/-- A concrete debug state over `demoHeap` with a zero ledger. -/
def demoState : DebugState :=
  ⟨demoHeap, 0, 0⟩

/-- A concrete sequence of tracked operations: two allocations (5 and 7
bytes; the first returns address 1) followed by a release of address 1. -/
def demoOps : List DbgOp :=
  [DbgOp.alloc 5, DbgOp.alloc 7, DbgOp.free 1]

end StaticLang

namespace StaticLang

/-! Helper lemmas about strings and heap lookups. -/

theorem takeUntilZero_zero_not_mem : ∀ {bs s : List Nat}, takeUntilZero bs = some s → 0 ∉ s := by
  intro bs
  induction bs with
  | nil => intro s hs; simp [takeUntilZero] at hs
  | cons b bs ih =>
    intro s hs
    by_cases hb : b = 0
    · rw [takeUntilZero, if_pos hb] at hs
      rw [← Option.some_inj.mp hs]
      simp
    · rw [takeUntilZero, if_neg hb] at hs
      obtain ⟨t, ht, rfl⟩ := Option.map_eq_some'.mp hs
      intro hmem
      rcases List.mem_cons.mp hmem with h0 | h0
      · exact hb h0.symm
      · exact ih ht h0

theorem takeUntilZero_append (s rest : List Nat) (hs : 0 ∉ s) :
    takeUntilZero (s ++ 0 :: rest) = some s := by
  induction s with
  | nil => simp [takeUntilZero]
  | cons b s ih =>
    simp at hs
    simp [takeUntilZero, Ne.symm hs.1, ih hs.2]

theorem lookupBlocks_write (bs : List (Nat × List Nat)) (p : Nat) (data : List Nat) :
    lookupBlocks (bs.map (fun b => if b.1 = p then (b.1, data ++ b.2.drop data.length) else b)) p
      = (lookupBlocks bs p).map (fun old => data ++ old.drop data.length) := by
  induction bs with
  | nil => simp [lookupBlocks]
  | cons b bs ih =>
    by_cases hb : b.1 = p
    · simp [lookupBlocks, hb]
    · simp [lookupBlocks, hb, ih]

theorem lookup_writeBytes (h : Heap) (p : Ptr) (data : List Nat) :
    (writeBytes h p data).lookup p
      = (h.lookup p).map (fun old => data ++ old.drop data.length) := by
  simp [writeBytes, Heap.lookup, lookupBlocks_write]

theorem lookupBlocks_none (bs : List (Nat × List Nat)) (p : Nat)
    (hb : ∀ b ∈ bs, b.1 ≠ p) : lookupBlocks bs p = none := by
  induction bs with
  | nil => simp [lookupBlocks]
  | cons b bs ih =>
    simp [lookupBlocks, hb b (by simp)]
    exact ih (fun b hbb => hb b (by simp [hbb]))

theorem lookupBlocks_mem (bs : List (Nat × List Nat)) (p : Nat) (v : List Nat)
    (hl : lookupBlocks bs p = some v) : ∃ b ∈ bs, b.1 = p := by
  induction bs with
  | nil => simp [lookupBlocks] at hl
  | cons b bs ih =>
    by_cases hb : b.1 = p
    · exact ⟨b, by simp, hb⟩
    · simp [lookupBlocks, hb] at hl
      obtain ⟨b', hb', hp⟩ := ih hl
      exact ⟨b', by simp [hb'], hp⟩

theorem lookup_strcpy (h : Heap) (r : Ptr) (s old : List Nat)
    (hl : h.lookup r = some old) :
    (strcpy h r s).lookup r = some ((s ++ [0]) ++ old.drop (s.length + 1)) := by
  rw [strcpy, lookup_writeBytes, hl]
  simp

theorem readStr_zero_not_mem (h : Heap) (p : Ptr) (s : List Nat)
    (hs : readStr h p = some s) : 0 ∉ s := by
  rw [readStr] at hs
  obtain ⟨bytes, _, ht⟩ := Option.bind_eq_some.mp hs
  exact takeUntilZero_zero_not_mem ht

theorem lookup_next_none (h : Heap) (hwf : h.wf) : h.lookup h.next = none :=
  lookupBlocks_none _ _ (fun b hb => Nat.ne_of_lt (hwf.2 b hb))

theorem lt_next_of_readStr (h : Heap) (p : Ptr) (s : List Nat) (hwf : h.wf)
    (hs : readStr h p = some s) : p < h.next := by
  rw [readStr] at hs
  obtain ⟨bytes, hb, _⟩ := Option.bind_eq_some.mp hs
  obtain ⟨b, hbm, hbp⟩ := lookupBlocks_mem _ _ _ hb
  exact hbp ▸ hwf.2 b hbm

/-! Success paths of the two string allocators. -/

theorem sl_alloc_string_eq (h : Heap) (p : Ptr) (s : List Nat)
    (hoom : h.oom = false) (hnext : 1 ≤ h.next) (hp : p ≠ 0) (hs : readStr h p = some s) :
    sl_alloc_string h p =
      some (strcpy ⟨false, h.next + 1, (h.next, List.replicate (s.length + 1) 0) :: h.mem⟩ h.next s,
            h.next) := by
  have hz : h.next ≠ 0 := by omega
  unfold sl_alloc_string
  rw [if_neg hp, hs]
  simp [malloc, hoom, hz]

theorem sl_alloc_string_lookup (h : Heap) (p : Ptr) (s : List Nat)
    (hoom : h.oom = false) (hnext : 1 ≤ h.next) (hp : p ≠ 0) (hs : readStr h p = some s) :
    ∃ h', sl_alloc_string h p = some (h', h.next) ∧ h'.lookup h.next = some (s ++ [0]) := by
  refine ⟨_, sl_alloc_string_eq h p s hoom hnext hp hs, ?_⟩
  rw [lookup_strcpy _ _ _ (List.replicate (s.length + 1) 0) (by simp [Heap.lookup, lookupBlocks])]
  simp

theorem sl_concat_string_eq (h : Heap) (p1 p2 : Ptr) (s1 s2 : List Nat)
    (hoom : h.oom = false) (hnext : 1 ≤ h.next)
    (hp1 : p1 ≠ 0) (hp2 : p2 ≠ 0)
    (hs1 : readStr h p1 = some s1) (hs2 : readStr h p2 = some s2) :
    sl_concat_string h p1 p2 =
      some (strcat (strcpy ⟨false, h.next + 1,
              (h.next, List.replicate (s1.length + s2.length + 1) 0) :: h.mem⟩ h.next s1)
            h.next s2, h.next) := by
  have hz : h.next ≠ 0 := by omega
  unfold sl_concat_string
  rw [if_neg (by simp [hp1]), if_neg hp1, if_neg hp2, hs1, hs2]
  simp [malloc, hoom, hz]

theorem sl_concat_string_lookup (h : Heap) (p1 p2 : Ptr) (s1 s2 : List Nat)
    (hoom : h.oom = false) (hnext : 1 ≤ h.next)
    (hp1 : p1 ≠ 0) (hp2 : p2 ≠ 0)
    (hs1 : readStr h p1 = some s1) (hs2 : readStr h p2 = some s2) :
    ∃ h', sl_concat_string h p1 p2 = some (h', h.next)
      ∧ h'.lookup h.next = some (s1 ++ s2 ++ [0]) := by
  refine ⟨_, sl_concat_string_eq h p1 p2 s1 s2 hoom hnext hp1 hp2 hs1 hs2, ?_⟩
  have hcpy : (strcpy ⟨false, h.next + 1,
      (h.next, List.replicate (s1.length + s2.length + 1) 0) :: h.mem⟩ h.next s1).lookup h.next
      = some (s1 ++ 0 :: List.replicate s2.length 0) := by
    rw [lookup_strcpy _ _ _ (List.replicate (s1.length + s2.length + 1) 0)
      (by simp [Heap.lookup, lookupBlocks])]
    have hdrop : (List.replicate (s1.length + s2.length + 1) 0).drop (s1.length + 1)
        = List.replicate s2.length 0 := by
      rw [List.drop_replicate]
      congr 1
      omega
    rw [hdrop]
    simp
  have hread : readStr (strcpy ⟨false, h.next + 1,
      (h.next, List.replicate (s1.length + s2.length + 1) 0) :: h.mem⟩ h.next s1) h.next
      = some s1 := by
    rw [readStr, hcpy]
    simp [takeUntilZero_append s1 _ (readStr_zero_not_mem h p1 s1 hs1)]
  rw [strcat, hread]
  rw [lookup_writeBytes, hcpy]
  have hdrop2 : (s1 ++ 0 :: List.replicate s2.length 0).drop (s1 ++ s2 ++ [0]).length = [] := by
    apply List.drop_eq_nil_of_le
    simp
  simp [hdrop2]

theorem strcmp_eq_zero_iff : ∀ s1 s2 : List Nat, strcmp s1 s2 = 0 ↔ s1 = s2 := by
  intro s1
  induction s1 with
  | nil => intro s2; cases s2 <;> simp [strcmp]
  | cons a as ih =>
    intro s2
    cases s2 with
    | nil => simp [strcmp]
    | cons b bs =>
      rcases Nat.lt_trichotomy a b with hab | hab | hab
      · have hv : strcmp (a :: as) (b :: bs) = -1 := by
          simp only [strcmp, if_pos hab]
        rw [hv]
        constructor
        · intro hc; omega
        · intro hc; injection hc with h1 h2; omega
      · subst hab
        have hv : strcmp (a :: as) (a :: bs) = strcmp as bs := by
          simp only [strcmp, if_neg (lt_irrefl a)]
        rw [hv, ih bs]
        simp
      · have hv : strcmp (a :: as) (b :: bs) = 1 := by
          simp only [strcmp, if_neg (by omega : ¬a < b), if_pos hab]
        rw [hv]
        constructor
        · intro hc; omega
        · intro hc; injection hc with h1 h2; omega

end StaticLang

namespace StaticLang

/-! The claim theorems. -/

/-- Claim C1: `sl_concat_string` implements the NULL branching of the
spec: with both arguments NULL it returns NULL, and with two non-NULL
valid string arguments (and a successful allocation) it returns a newly
allocated block — one that was not live before the call — of
`length(a) + length(b) + 1` bytes holding the bytes of the first string,
then the bytes of the second, then the terminator. -/
theorem concat_string_spec (h : Heap) (p1 p2 : Ptr) (s1 s2 : List Nat)
    (hoom : h.oom = false) (hwf : h.wf) (hp1 : p1 ≠ 0) (hp2 : p2 ≠ 0)
    (hs1 : readStr h p1 = some s1) (hs2 : readStr h p2 = some s2) :
    sl_concat_string h 0 0 = some (h, 0)
    ∧ ∃ h' r, sl_concat_string h p1 p2 = some (h', r)
        ∧ r ≠ 0 ∧ h.lookup r = none
        ∧ h'.lookup r = some (s1 ++ s2 ++ [0])
        ∧ (s1 ++ s2 ++ [0]).length = s1.length + s2.length + 1 := by
  refine ⟨by simp [sl_concat_string], ?_⟩
  obtain ⟨h', hEq, hLook⟩ :=
    sl_concat_string_lookup h p1 p2 s1 s2 hoom hwf.1 hp1 hp2 hs1 hs2
  have hr0 : h.next ≠ 0 := by have := hwf.1; omega
  have hlen : (s1 ++ s2 ++ [0]).length = s1.length + s2.length + 1 := by
    simp only [List.length_append, List.length_cons, List.length_nil]
  exact ⟨h', h.next, hEq, hr0, lookup_next_none h hwf, hLook, hlen⟩

/-- Instantiation of `concat_string_spec` on a concrete heap: the strings
"hi" (at address 1) and "yo" (at address 2) of `demoHeap`. -/
theorem concat_string_spec_witness :
    demoHeap.oom = false ∧ demoHeap.wf ∧ (1 : Ptr) ≠ 0 ∧ (2 : Ptr) ≠ 0
    ∧ readStr demoHeap 1 = some [104, 105] ∧ readStr demoHeap 2 = some [121, 111]
    ∧ (sl_concat_string demoHeap 0 0 = some (demoHeap, 0)
       ∧ ∃ h' r, sl_concat_string demoHeap 1 2 = some (h', r)
          ∧ r ≠ 0 ∧ demoHeap.lookup r = none
          ∧ h'.lookup r = some ([104, 105] ++ [121, 111] ++ [0])
          ∧ ([104, 105] ++ [121, 111] ++ ([0] : List Nat)).length
              = [104, 105].length + [121, 111].length + 1) :=
  ⟨rfl, by decide, by decide, by decide, by decide, by decide,
   concat_string_spec demoHeap 1 2 [104, 105] [121, 111] rfl (by decide) (by decide)
     (by decide) (by decide) (by decide)⟩

/-- Claim C2: `sl_alloc_string` maps NULL to NULL; on a non-NULL valid
string it allocates a fresh block of exactly `length(source) + 1` bytes
holding all source bytes plus the terminator (when the allocation
succeeds); and when the host allocator fails (the same heap with the
`oom` flag set) it returns NULL. -/
theorem alloc_string_spec (h : Heap) (p : Ptr) (s : List Nat)
    (hoom : h.oom = false) (hwf : h.wf) (hp : p ≠ 0) (hs : readStr h p = some s) :
    sl_alloc_string h 0 = some (h, 0)
    ∧ (∃ h' r, sl_alloc_string h p = some (h', r)
        ∧ r ≠ 0 ∧ h.lookup r = none
        ∧ h'.lookup r = some (s ++ [0])
        ∧ (s ++ [0]).length = s.length + 1)
    ∧ sl_alloc_string ⟨true, h.next, h.mem⟩ p = some (⟨true, h.next, h.mem⟩, 0) := by
  refine ⟨by simp [sl_alloc_string], ?_, ?_⟩
  · obtain ⟨h', hEq, hLook⟩ := sl_alloc_string_lookup h p s hoom hwf.1 hp hs
    have hr0 : h.next ≠ 0 := by have := hwf.1; omega
    exact ⟨h', h.next, hEq, hr0, lookup_next_none h hwf, hLook, by simp⟩
  · have hs' : readStr ⟨true, h.next, h.mem⟩ p = some s := hs
    unfold sl_alloc_string
    rw [if_neg hp, hs']
    simp [malloc]

/-- Instantiation of `alloc_string_spec` on the string "hi" of
`demoHeap`. -/
theorem alloc_string_spec_witness :
    demoHeap.oom = false ∧ demoHeap.wf ∧ (1 : Ptr) ≠ 0
    ∧ readStr demoHeap 1 = some [104, 105]
    ∧ (sl_alloc_string demoHeap 0 = some (demoHeap, 0)
       ∧ (∃ h' r, sl_alloc_string demoHeap 1 = some (h', r)
           ∧ r ≠ 0 ∧ demoHeap.lookup r = none
           ∧ h'.lookup r = some ([104, 105] ++ [0])
           ∧ (([104, 105] : List Nat) ++ [0]).length = [104, 105].length + 1)
       ∧ sl_alloc_string ⟨true, demoHeap.next, demoHeap.mem⟩ 1
           = some (⟨true, demoHeap.next, demoHeap.mem⟩, 0)) :=
  ⟨rfl, by decide, by decide, by decide,
   alloc_string_spec demoHeap 1 [104, 105] rfl (by decide) (by decide) (by decide)⟩

/-- Claim C3: `sl_compare_string` returns 0 when both arguments are NULL;
a nonzero value when exactly one is NULL, whichever side it is; and on two
non-NULL valid strings the lexicographic `strcmp` of their contents, which
is 0 exactly when the contents are equal. -/
theorem compare_string_spec (h : Heap) (p1 p2 : Ptr) (s1 s2 : List Nat)
    (hp1 : p1 ≠ 0) (hp2 : p2 ≠ 0)
    (hs1 : readStr h p1 = some s1) (hs2 : readStr h p2 = some s2) :
    sl_compare_string h 0 0 = some 0
    ∧ (∃ v, sl_compare_string h p1 0 = some v ∧ v ≠ 0)
    ∧ (∃ v, sl_compare_string h 0 p1 = some v ∧ v ≠ 0)
    ∧ sl_compare_string h p1 p2 = some (strcmp s1 s2)
    ∧ (strcmp s1 s2 = 0 ↔ s1 = s2) := by
  refine ⟨by simp [sl_compare_string],
    ⟨1, by simp [sl_compare_string, hp1], by omega⟩,
    ⟨1, by simp [sl_compare_string, hp1], by omega⟩,
    ?_, strcmp_eq_zero_iff s1 s2⟩
  unfold sl_compare_string
  rw [if_neg (by simp [hp1]), if_neg (by simp [hp1, hp2]), hs1, hs2]

/-- Instantiation of `compare_string_spec` on the strings "hi" and "yo"
of `demoHeap`. -/
theorem compare_string_spec_witness :
    (1 : Ptr) ≠ 0 ∧ (2 : Ptr) ≠ 0
    ∧ readStr demoHeap 1 = some [104, 105] ∧ readStr demoHeap 2 = some [121, 111]
    ∧ (sl_compare_string demoHeap 0 0 = some 0
       ∧ (∃ v, sl_compare_string demoHeap 1 0 = some v ∧ v ≠ 0)
       ∧ (∃ v, sl_compare_string demoHeap 0 1 = some v ∧ v ≠ 0)
       ∧ sl_compare_string demoHeap 1 2 = some (strcmp [104, 105] [121, 111])
       ∧ (strcmp [104, 105] [121, 111] = 0 ↔ [104, 105] = [121, 111])) :=
  ⟨by decide, by decide, by decide, by decide,
   compare_string_spec demoHeap 1 2 [104, 105] [121, 111] (by decide) (by decide)
     (by decide) (by decide)⟩

end StaticLang

namespace StaticLang

/-- Claim C5: `sl_free` on the NULL pointer is a no-op: it performs no
deallocation and leaves the heap unchanged, no matter how many times it
is called. -/
theorem free_null_noop (h : Heap) (n : Nat) :
    sl_free h 0 = h ∧ (fun g => sl_free g 0)^[n] h = h := by
  have h1 : ∀ g : Heap, sl_free g 0 = g := by
    intro g; simp [sl_free]
  refine ⟨h1 h, ?_⟩
  induction n with
  | zero => simp
  | succ n ih => rw [Function.iterate_succ_apply, h1, ih]

/-- Claim C6: `sl_concat_string` with exactly one NULL operand is exactly
`sl_alloc_string` on the non-NULL operand, whichever side the NULL is on:
it returns a fresh independent copy — a block that was not live before
the call, content-equal to the operand but at a different address than
the operand's own block. -/
theorem concat_string_one_null (h : Heap) (p : Ptr) (s : List Nat)
    (hoom : h.oom = false) (hwf : h.wf) (hp : p ≠ 0) (hs : readStr h p = some s) :
    sl_concat_string h p 0 = sl_alloc_string h p
    ∧ sl_concat_string h 0 p = sl_alloc_string h p
    ∧ ∃ h' r, sl_concat_string h p 0 = some (h', r)
        ∧ r ≠ p ∧ h.lookup r = none
        ∧ readStr h' r = some s ∧ readStr h p = some s := by
  have hb1 : sl_concat_string h p 0 = sl_alloc_string h p := by
    unfold sl_concat_string
    rw [if_neg (by simp [hp]), if_neg hp, if_pos rfl]
  have hb2 : sl_concat_string h 0 p = sl_alloc_string h p := by
    unfold sl_concat_string
    rw [if_neg (by simp [hp]), if_pos rfl]
  obtain ⟨h', hEq, hLook⟩ := sl_alloc_string_lookup h p s hoom hwf.1 hp hs
  refine ⟨hb1, hb2, h', h.next, hb1.trans hEq,
    Nat.ne_of_gt (lt_next_of_readStr h p s hwf hs), lookup_next_none h hwf, ?_, hs⟩
  rw [readStr, hLook]
  simpa using takeUntilZero_append s [] (readStr_zero_not_mem h p s hs)

/-- Instantiation of `concat_string_one_null` on the string "hi" of
`demoHeap`. -/
theorem concat_string_one_null_witness :
    demoHeap.oom = false ∧ demoHeap.wf ∧ (1 : Ptr) ≠ 0
    ∧ readStr demoHeap 1 = some [104, 105]
    ∧ (sl_concat_string demoHeap 1 0 = sl_alloc_string demoHeap 1
       ∧ sl_concat_string demoHeap 0 1 = sl_alloc_string demoHeap 1
       ∧ ∃ h' r, sl_concat_string demoHeap 1 0 = some (h', r)
          ∧ r ≠ 1 ∧ demoHeap.lookup r = none
          ∧ readStr h' r = some [104, 105] ∧ readStr demoHeap 1 = some [104, 105]) :=
  ⟨rfl, by decide, by decide, by decide,
   concat_string_one_null demoHeap 1 [104, 105] rfl (by decide) (by decide) (by decide)⟩

/-- Claim C7: `sl_alloc_array` returns either NULL or a zero-initialized
block of `element_size * count` bytes, and it returns NULL whenever the
`size_t` product `element_size * count` overflows. -/
theorem alloc_array_spec (h : Heap) (element_size count : Nat) :
    ((sl_alloc_array h element_size count).2 = 0
      ∨ (sl_alloc_array h element_size count).1.lookup (sl_alloc_array h element_size count).2
          = some (List.replicate (element_size * count) 0))
    ∧ (SIZE_MAX < element_size * count → (sl_alloc_array h element_size count).2 = 0) := by
  unfold sl_alloc_array calloc
  rw [Nat.mul_comm count element_size]
  by_cases hov : SIZE_MAX < element_size * count
  · simp [hov]
  · rw [if_neg hov]
    by_cases hoom : h.oom = true
    · simp [hoom, hov]
    · simp only [Bool.not_eq_true] at hoom
      simp [hoom, hov, Heap.lookup, lookupBlocks]

/-- Instantiation of `alloc_array_spec`: a 4-byte element type with count
5 on `demoHeap`. -/
theorem alloc_array_spec_witness :
    ((sl_alloc_array demoHeap 4 5).2 = 0
      ∨ (sl_alloc_array demoHeap 4 5).1.lookup (sl_alloc_array demoHeap 4 5).2
          = some (List.replicate (4 * 5) 0))
    ∧ (SIZE_MAX < 4 * 5 → (sl_alloc_array demoHeap 4 5).2 = 0) :=
  alloc_array_spec demoHeap 4 5

/-- Claim C9: when exactly one argument of `sl_compare_string` is NULL,
the result is exactly the constant 1 — positive, independent of which
side is NULL, and independent of what the non-NULL pointer refers to. -/
theorem compare_string_one_null (h : Heap) (q : Ptr) (hq : q ≠ 0) :
    sl_compare_string h q 0 = some 1 ∧ sl_compare_string h 0 q = some 1 := by
  constructor <;> simp [sl_compare_string, hq]

/-- Instantiation of `compare_string_one_null` at pointer 7 of `demoHeap`
(the pointer need not even refer to a live block). -/
theorem compare_string_one_null_witness :
    (7 : Ptr) ≠ 0
    ∧ (sl_compare_string demoHeap 7 0 = some 1 ∧ sl_compare_string demoHeap 0 7 = some 1) :=
  ⟨by decide, compare_string_one_null demoHeap 7 (by decide)⟩

end StaticLang

namespace StaticLang

/-! Ledger step lemmas and the trace invariant. -/

theorem debug_malloc_fields (s : DebugState) (size : Nat)
    (hoom : s.heap.oom = false) (hnext : 1 ≤ s.heap.next) :
    (sl_debug_malloc s size).1.allocated_bytes = (s.allocated_bytes + size) % WORD
    ∧ (sl_debug_malloc s size).1.allocation_count = (s.allocation_count + 1) % WORD
    ∧ (sl_debug_malloc s size).1.heap.oom = false
    ∧ (sl_debug_malloc s size).1.heap.next = s.heap.next + 1 := by
  have hz : s.heap.next ≠ 0 := by omega
  simp [sl_debug_malloc, malloc, hoom, hz]

theorem debug_free_fields (s : DebugState) (p : Ptr) (hp : p ≠ 0) :
    (sl_debug_free s p).allocated_bytes = s.allocated_bytes
    ∧ (sl_debug_free s p).allocation_count = (s.allocation_count + (WORD - 1)) % WORD
    ∧ (sl_debug_free s p).heap.oom = s.heap.oom
    ∧ (sl_debug_free s p).heap.next = s.heap.next := by
  simp [sl_debug_free, hp, hostFree]

theorem runOps_ledger : ∀ (ops : List DbgOp) (s : DebugState),
    s.heap.oom = false → 1 ≤ s.heap.next →
    s.allocated_bytes < WORD → s.allocation_count < WORD →
    (∀ p, DbgOp.free p ∈ ops → p ≠ 0) →
    (runOps s ops).allocated_bytes = (s.allocated_bytes + sumAllocSizes ops) % WORD
    ∧ (runOps s ops).allocation_count
        = (s.allocation_count + countAllocs ops + (WORD - 1) * countFrees ops) % WORD := by
  intro ops
  induction ops with
  | nil =>
    intro s hoom hnext hb hc hf
    simp only [runOps, sumAllocSizes, countAllocs, countFrees]
    constructor <;> (unfold WORD at *; omega)
  | cons op rest ih =>
    intro s hoom hnext hb hc hf
    have hWpos : 0 < WORD := by unfold WORD; omega
    cases op with
    | alloc size =>
      obtain ⟨e1, e2, e3, e4⟩ := debug_malloc_fields s size hoom hnext
      obtain ⟨ih1, ih2⟩ := ih (sl_debug_malloc s size).1 e3 (by omega)
        (by rw [e1]; exact Nat.mod_lt _ hWpos) (by rw [e2]; exact Nat.mod_lt _ hWpos)
        (fun p hp => hf p (List.mem_cons_of_mem _ hp))
      simp only [runOps, sumAllocSizes, countAllocs, countFrees]
      constructor
      · rw [ih1, e1]; unfold WORD; omega
      · rw [ih2, e2]; unfold WORD; omega
    | free q =>
      have hq : q ≠ 0 := hf q (List.mem_cons_self _ _)
      obtain ⟨e1, e2, e3, e4⟩ := debug_free_fields s q hq
      obtain ⟨ih1, ih2⟩ := ih (sl_debug_free s q) (by rw [e3]; exact hoom) (by omega)
        (by rw [e1]; exact hb) (by rw [e2]; exact Nat.mod_lt _ hWpos)
        (fun p hp => hf p (List.mem_cons_of_mem _ hp))
      simp only [runOps, sumAllocSizes, countAllocs, countFrees]
      constructor
      · rw [ih1, e1]
      · rw [ih2, e2]; unfold WORD; omega

theorem debug_malloc_bytes_cases (s : DebugState) (size : Nat) :
    (sl_debug_malloc s size).1.allocated_bytes = (s.allocated_bytes + size) % WORD
    ∨ (sl_debug_malloc s size).1.allocated_bytes = s.allocated_bytes := by
  simp only [sl_debug_malloc]
  split
  · left; rfl
  · right; rfl

theorem debug_free_bytes (s : DebugState) (p : Ptr) :
    (sl_debug_free s p).allocated_bytes = s.allocated_bytes := by
  unfold sl_debug_free
  split <;> rfl

theorem runOps_bytes_mono : ∀ (ops : List DbgOp) (s : DebugState),
    s.allocated_bytes + sumAllocSizes ops < WORD →
    s.allocated_bytes ≤ (runOps s ops).allocated_bytes := by
  intro ops
  induction ops with
  | nil => intro s h; simp [runOps]
  | cons op rest ih =>
    intro s hov
    cases op with
    | alloc size =>
      simp only [runOps]
      simp only [sumAllocSizes] at hov
      rcases debug_malloc_bytes_cases s size with hcase | hcase
      · have hlt : s.allocated_bytes + size < WORD := by omega
        have heq : (sl_debug_malloc s size).1.allocated_bytes = s.allocated_bytes + size := by
          rw [hcase, Nat.mod_eq_of_lt hlt]
        have hstep := ih (sl_debug_malloc s size).1 (by rw [heq]; omega)
        omega
      · have hstep := ih (sl_debug_malloc s size).1 (by rw [hcase]; omega)
        omega
    | free q =>
      simp only [runOps]
      simp only [sumAllocSizes] at hov
      have hfq := debug_free_bytes s q
      have hstep := ih (sl_debug_free s q) (by rw [hfq]; omega)
      omega

/-- Claim C4: starting from the zero ledger at process start, after any
sequence of tracked allocations (all of which succeed) and tracked
releases of non-NULL blocks with M ≤ N, the live-allocation count equals
N − M and the cumulative bytes equal the sum of the requested sizes of
the N allocations (with N and that sum representable in `size_t`, as in
any real execution). -/
theorem debug_ledger_after_ops (ops : List DbgOp)
    (hfree : ∀ p, DbgOp.free p ∈ ops → p ≠ 0)
    (hMN : countFrees ops ≤ countAllocs ops)
    (hN : countAllocs ops < WORD)
    (hsum : sumAllocSizes ops < WORD) :
    (runOps startDebugState ops).allocation_count = countAllocs ops - countFrees ops
    ∧ (runOps startDebugState ops).allocated_bytes = sumAllocSizes ops := by
  have hWpos : (0 : Nat) < WORD := by unfold WORD; omega
  obtain ⟨h1, h2⟩ := runOps_ledger ops startDebugState rfl (by simp [startDebugState])
    hWpos hWpos hfree
  constructor
  · rw [h2]
    simp only [startDebugState]
    unfold WORD at *
    omega
  · rw [h1]
    simp only [startDebugState]
    unfold WORD at *
    omega

/-- Instantiation of `debug_ledger_after_ops` on `demoOps` (N = 2
allocations of 5 and 7 bytes, M = 1 release): the live count is 1 and
the cumulative bytes are 12. -/
theorem debug_ledger_after_ops_witness :
    (∀ p, DbgOp.free p ∈ demoOps → p ≠ 0)
    ∧ countFrees demoOps ≤ countAllocs demoOps
    ∧ countAllocs demoOps < WORD
    ∧ sumAllocSizes demoOps < WORD
    ∧ ((runOps startDebugState demoOps).allocation_count
        = countAllocs demoOps - countFrees demoOps
       ∧ (runOps startDebugState demoOps).allocated_bytes = sumAllocSizes demoOps) := by
  have hf : ∀ p, DbgOp.free p ∈ demoOps → p ≠ 0 := by
    intro p hp
    simp [demoOps] at hp
    subst hp
    decide
  exact ⟨hf, by decide, by decide, by decide,
    debug_ledger_after_ops demoOps hf (by decide) (by decide) (by decide)⟩

/-- Claim C8: the Allocation Ledger starts in the zero state at process
start; every successful tracked allocation and every tracked release of a
non-NULL block mutates it (by exactly the stated `size_t` updates, which
always change the live count); and the reporting operation returns
exactly the ledger's current contents without mutating anything (in the
model it is a pure read).  These step equations are the only transitions
the ledger has, so it is never reset. -/
theorem ledger_lifecycle (s : DebugState) (size : Nat) (p : Ptr)
    (hoom : s.heap.oom = false) (hnext : 1 ≤ s.heap.next) (hp : p ≠ 0) :
    (startDebugState.allocated_bytes = 0 ∧ startDebugState.allocation_count = 0)
    ∧ ((sl_debug_malloc s size).1.allocated_bytes = (s.allocated_bytes + size) % WORD
       ∧ (sl_debug_malloc s size).1.allocation_count = (s.allocation_count + 1) % WORD
       ∧ (sl_debug_malloc s size).1.allocation_count ≠ s.allocation_count)
    ∧ ((sl_debug_free s p).allocated_bytes = s.allocated_bytes
       ∧ (sl_debug_free s p).allocation_count = (s.allocation_count + (WORD - 1)) % WORD
       ∧ (sl_debug_free s p).allocation_count ≠ s.allocation_count)
    ∧ sl_print_memory_stats s = (s.allocated_bytes, s.allocation_count) := by
  obtain ⟨m1, m2, _, _⟩ := debug_malloc_fields s size hoom hnext
  obtain ⟨f1, f2, _, _⟩ := debug_free_fields s p hp
  refine ⟨⟨rfl, rfl⟩, ⟨m1, m2, ?_⟩, ⟨f1, f2, ?_⟩, rfl⟩
  · rw [m2]; unfold WORD; omega
  · rw [f2]; unfold WORD; omega

/-- Instantiation of `ledger_lifecycle` at `demoState` with a 9-byte
allocation and a release of address 1. -/
theorem ledger_lifecycle_witness :
    demoState.heap.oom = false ∧ 1 ≤ demoState.heap.next ∧ (1 : Ptr) ≠ 0
    ∧ ((startDebugState.allocated_bytes = 0 ∧ startDebugState.allocation_count = 0)
       ∧ ((sl_debug_malloc demoState 9).1.allocated_bytes
            = (demoState.allocated_bytes + 9) % WORD
          ∧ (sl_debug_malloc demoState 9).1.allocation_count
              = (demoState.allocation_count + 1) % WORD
          ∧ (sl_debug_malloc demoState 9).1.allocation_count ≠ demoState.allocation_count)
       ∧ ((sl_debug_free demoState 1).allocated_bytes = demoState.allocated_bytes
          ∧ (sl_debug_free demoState 1).allocation_count
              = (demoState.allocation_count + (WORD - 1)) % WORD
          ∧ (sl_debug_free demoState 1).allocation_count ≠ demoState.allocation_count)
       ∧ sl_print_memory_stats demoState
           = (demoState.allocated_bytes, demoState.allocation_count)) :=
  ⟨rfl, by decide, by decide,
   ledger_lifecycle demoState 9 1 rfl (by decide) (by decide)⟩

/-- Claim C10: the cumulative-bytes counter is monotonically
non-decreasing: a tracked release leaves it exactly unchanged, and over
any sequence of tracked operations (whose total requested bytes fit in
`size_t`) no operation ever decreases it. -/
theorem allocated_bytes_monotone (s : DebugState) (ops : List DbgOp) (p : Ptr)
    (hov : s.allocated_bytes + sumAllocSizes ops < WORD) :
    (sl_debug_free s p).allocated_bytes = s.allocated_bytes
    ∧ s.allocated_bytes ≤ (runOps s ops).allocated_bytes :=
  ⟨debug_free_bytes s p, runOps_bytes_mono ops s hov⟩

/-- Instantiation of `allocated_bytes_monotone` at `demoState` over
`demoOps`. -/
theorem allocated_bytes_monotone_witness :
    demoState.allocated_bytes + sumAllocSizes demoOps < WORD
    ∧ ((sl_debug_free demoState 1).allocated_bytes = demoState.allocated_bytes
       ∧ demoState.allocated_bytes ≤ (runOps demoState demoOps).allocated_bytes) :=
  ⟨by decide, allocated_bytes_monotone demoState demoOps 1 (by decide)⟩

end StaticLang
